import Mathlib

/-!
Formal model of the once-around ephemeris pipeline.

The repository's two scripts (`scripts/generate_iss_ephemeris.py` and
`scripts/generate_satellite_ephemeris.py`) share one pipeline: fetch a
satellite's position vectors from the NASA Horizons service, parse the
CSV-like payload between the literal `$$SOE` / `$$EOE` sentinel lines into
samples, write the samples to a little-endian binary file
(u32 count header, then 32-byte records of four f64 fields), and read the
file back for a diagnostic report.  This file embeds those operations as
executable Lean definitions and proves the specified properties about them.

Modelling conventions:
- Bytes are `Nat` values below 256; byte strings are `List Nat`.
- The f64 fields of a binary record are modelled by their 64-bit IEEE-754
  bit patterns (`Nat` below `2 ^ 64`): `struct.pack "<d"` writes exactly the
  little-endian bytes of that bit pattern, so bit-pattern identity is
  field-for-field floating-point identity for the finite values the format
  carries.
- Numeric values produced by the response parser are modelled as exact
  rationals (`ℚ`); the claims about the parser depend only on which rows
  parse and in which order, never on floating-point rounding.
- The diagnostic radius arithmetic of the verifier is modelled over `ℝ`,
  where the claimed inputs make the floating-point arithmetic exact.
-/

namespace OnceAround

/-- Little-endian byte string of a natural number, `k` bytes, least
significant byte first.  Models the byte layout produced by `struct.pack`
with a little-endian unsigned field of width `k` (and, with `k = 8`, the
byte layout of an f64 whose bit pattern is `n`). -/
def toLE : Nat → Nat → List Nat
  | 0, _ => []
  | k + 1, n => n % 256 :: toLE k (n / 256)

/-- Little-endian byte decoding, inverse of `toLE`; models `struct.unpack`
reading an unsigned little-endian field. -/
def readLE : List Nat → Nat :=
  List.foldr (fun b acc => b + 256 * acc) 0

/-- One binary-format sample record.  The four f64 fields written by
`struct.pack("<dddd", p["jd"], p["x"], p["y"], p["z"])` in
`write_binary_ephemeris` are modelled by their 64-bit bit patterns. -/
structure FRec where
  jd : Nat
  x : Nat
  y : Nat
  z : Nat
  deriving DecidableEq, Repr

/-- A record is valid when each field is a genuine 64-bit pattern, which is
the shallow rendering of "the four fields are finite f64 values" (every f64,
finite in particular, has a bit pattern below `2 ^ 64`). -/
def validRec (r : FRec) : Prop :=
  r.jd < 2 ^ 64 ∧ r.x < 2 ^ 64 ∧ r.y < 2 ^ 64 ∧ r.z < 2 ^ 64

instance (r : FRec) : Decidable (validRec r) := by
  unfold validRec
  infer_instance

/-- Byte string of one record: `struct.pack("<dddd", jd, x, y, z)`, four
little-endian 8-byte fields in the order time, x, y, z. -/
def recBytes (r : FRec) : List Nat :=
  toLE 8 r.jd ++ toLE 8 r.x ++ toLE 8 r.y ++ toLE 8 r.z

/-- Byte string of the record section, in stream order: the `for p in
points: f.write(struct.pack("<dddd", ...))` loop of `write_binary_ephemeris`. -/
def encodeRecords : List FRec → List Nat
  | [] => []
  | r :: t => recBytes r ++ encodeRecords t

/-- Model of `write_binary_ephemeris` (both scripts): the byte string it
writes — `struct.pack("<I", len(points))` followed by the packed records.
`struct.pack("<I", n)` raises `struct.error` when `n ≥ 2 ^ 32`, hence the
guard; on every representable stream the result is `some` bytes. -/
def encode (points : List FRec) : Option (List Nat) :=
  if points.length < 2 ^ 32 then some (toLE 4 points.length ++ encodeRecords points)
  else none

/-- Decode-time failure taxonomy of the binary codec. -/
inductive CodecError where
  | truncatedData
  deriving DecidableEq, Repr

/-- Point count declared by a byte string's 4-byte little-endian header. -/
def headerCount (b : List Nat) : Nat := readLE (b.take 4)

/-- Reading one 32-byte record back: `struct.unpack("<dddd", ...)`. -/
def decodeRec (b : List Nat) : FRec :=
  ⟨readLE (b.take 8), readLE ((b.drop 8).take 8),
    readLE ((b.drop 16).take 8), readLE ((b.drop 24).take 8)⟩

/-- Reading `n` consecutive 32-byte records. -/
def decodeRecords : List Nat → Nat → List FRec
  | _, 0 => []
  | b, k + 1 => decodeRec (b.take 32) :: decodeRecords (b.drop 32) k

/-- Modelled from the spec: `BinaryCodec.decode` (spec §4.3).  The full
decoder of this format is the downstream sky_engine consumer named by both
scripts' module docstrings and is not among the repository files under
`src/`; `src/` holds only the writer (`write_binary_ephemeris`) and a
spot-check reader (`verify_binary_ephemeris`).  Following the spec's words:
reject input shorter than 4 bytes, and input whose length is not
`4 + 32 * count` for the count declared in the 4-byte little-endian header,
with `TruncatedDataError`; otherwise read the records. -/
def decode (b : List Nat) : Except CodecError (List FRec) :=
  if b.length < 4 then Except.error CodecError.truncatedData
  else if b.length = 4 + 32 * headerCount b then
    Except.ok (decodeRecords (b.drop 4) (headerCount b))
  else Except.error CodecError.truncatedData

/-! Response parser: the `for line in lines` loop shared by
`fetch_iss_vectors` (generate_iss_ephemeris.py:96-124) and
`fetch_satellite_vectors` (generate_satellite_ephemeris.py:105-136). -/

/-- Whitespace as `str.strip()` treats it (ASCII cases). -/
def isSpaceChar (c : Char) : Bool :=
  c == ' ' || c == '\t' || c == '\n' || c == '\r' || c == '\x0b' || c == '\x0c'

/-- Python `str.strip()` on a line: drop whitespace from both ends. -/
def stripL (l : List Char) : List Char :=
  ((l.dropWhile isSpaceChar).reverse.dropWhile isSpaceChar).reverse

/-- Python `str.split(sep)` for a one-character separator: keeps empty
fields, yields one field for the empty string. -/
def splitSep (sep : Char) : List Char → List (List Char)
  | [] => [[]]
  | c :: cs =>
    match splitSep sep cs with
    | [] => [[]]
    | acc :: rest => if c = sep then [] :: acc :: rest else (c :: acc) :: rest

/-- Value of a digit string, most significant digit first. -/
def digitsVal (ds : List Char) : Nat :=
  ds.foldl (fun a c => 10 * a + (c.toNat - 48)) 0

/-- Model of Python `float(s)` on a text field, as an exact rational:
optional surrounding whitespace and sign, integer digits, optional
fractional part, optional decimal exponent; anything else fails (`none`,
modelling the `ValueError` the scripts catch).  Non-finite literals and
digit-group underscores, which no Horizons field uses and no claim touches,
are outside the model and also map to `none`. -/
def pyFloat? (raw : List Char) : Option ℚ :=
  let l := stripL raw
  let signSplit : Bool × List Char :=
    match l with
    | '+' :: t => (false, t)
    | '-' :: t => (true, t)
    | t => (false, t)
  let neg := signSplit.1
  let afterSign := signSplit.2
  let ip := afterSign.takeWhile Char.isDigit
  let afterInt := afterSign.dropWhile Char.isDigit
  let fracSplit : List Char × List Char :=
    match afterInt with
    | '.' :: t => (t.takeWhile Char.isDigit, t.dropWhile Char.isDigit)
    | t => ([], t)
  let fp := fracSplit.1
  let afterFrac := fracSplit.2
  if ip.isEmpty && fp.isEmpty then none
  else
    let mag : ℚ := (digitsVal ip : ℚ) + (digitsVal fp : ℚ) / (10 : ℚ) ^ fp.length
    let mant : ℚ := if neg then -mag else mag
    match afterFrac with
    | [] => some mant
    | c :: t =>
      if c = 'e' ∨ c = 'E' then
        let esignSplit : Bool × List Char :=
          match t with
          | '+' :: u => (false, u)
          | '-' :: u => (true, u)
          | u => (false, u)
        let ed := esignSplit.2.takeWhile Char.isDigit
        let rest := esignSplit.2.dropWhile Char.isDigit
        if ed.isEmpty || !rest.isEmpty then none
        else
          some (if esignSplit.1 then mant / (10 : ℚ) ^ digitsVal ed
                else mant * (10 : ℚ) ^ digitsVal ed)
      else none

/-- The start-of-ephemeris sentinel line, as the scripts compare it. -/
def soeMark : List Char := "$$SOE".data

/-- The end-of-ephemeris sentinel line, as the scripts compare it. -/
def eoeMark : List Char := "$$EOE".data

/-- One parsed sample: jd and geocentric x, y, z (km), as exact rationals. -/
structure PRec where
  jd : ℚ
  x : ℚ
  y : ℚ
  z : ℚ
  deriving DecidableEq, Repr

/-- The body of the scripts' `try` block, field by field in evaluation
order: `float(parts[0])`, then `float(parts[2])`, `float(parts[3])`,
`float(parts[4])`; the first failure aborts the row (`none`, the caught
`ValueError`). -/
def parseFields (p0 p2 p3 p4 : List Char) : Option PRec :=
  match pyFloat? p0 with
  | none => none
  | some a =>
    match pyFloat? p2 with
    | none => none
    | some b =>
      match pyFloat? p3 with
      | none => none
      | some c =>
        match pyFloat? p4 with
        | none => none
        | some d => some ⟨a, b, c, d⟩

/-- The record a data line contributes, if any: split the stripped line on
commas, require at least five fields, parse fields 0, 2, 3, 4. -/
def rowRecord (l : List Char) : Option PRec :=
  match splitSep ',' (stripL l) with
  | p0 :: _ :: p2 :: p3 :: p4 :: _ => parseFields p0 p2 p3 p4
  | _ => none

/-- Parser loop state: the `in_data` flag, the accumulated `points`, and
the number of `Warning: Could not parse line` messages printed. -/
structure PState where
  inData : Bool
  points : List PRec
  warnings : Nat
  deriving DecidableEq, Repr

/-- One loop iteration either continues with a next state or breaks. -/
inductive StepOut where
  | go (s : PState)
  | stop (s : PState)
  deriving DecidableEq, Repr

/-- The loop body after `line = line.strip()`: `$$SOE` sets `in_data` and
continues; `$$EOE` breaks; a nonempty line inside the data span with at
least five comma fields is parsed — success appends a point, a numeric
failure prints a warning; every other line is ignored. -/
def stepStripped (s : PState) (l : List Char) : StepOut :=
  if l = soeMark then StepOut.go ⟨true, s.points, s.warnings⟩
  else if l = eoeMark then StepOut.stop s
  else if s.inData = true ∧ l ≠ [] then
    match splitSep ',' l with
    | p0 :: _ :: p2 :: p3 :: p4 :: _ =>
      match parseFields p0 p2 p3 p4 with
      | some r => StepOut.go ⟨s.inData, s.points ++ [r], s.warnings⟩
      | none => StepOut.go ⟨s.inData, s.points, s.warnings + 1⟩
    | _ => StepOut.go s
  else StepOut.go s

/-- One iteration of the scripts' line loop: strip, then process. -/
def stepLine (s : PState) (raw : List Char) : StepOut :=
  stepStripped s (stripL raw)

/-- The scripts' `for line in lines` loop, with `break` short-circuiting. -/
def runLines (s : PState) : List (List Char) → PState
  | [] => s
  | l :: ls =>
    match stepLine s l with
    | StepOut.stop s' => s'
    | StepOut.go s' => runLines s' ls

/-- Loop entry state: `in_data = False`, `points = []`, no warnings. -/
def initState : PState := ⟨false, [], 0⟩

/-- Run the parser loop from the entry state over a list of lines. -/
def parseLines (ls : List (List Char)) : PState := runLines initState ls

/-- Parse a whole payload text: `result_text.split("\n")`, then the loop. -/
def parsePayload (t : String) : PState := parseLines (splitSep '\n' t.data)

/-- The payload of the spec §8 parser test: a start marker, three
well-formed rows, one malformed row with only four comma fields, and an
end marker. -/
def exampleLines : List (List Char) :=
  ["$$SOE".data,
   "100.5, A.D. 2024-Jan-01 00:00:00.0000, 1.0, 2.0, 3.0,".data,
   "101.5, A.D. 2024-Jan-01 00:01:00.0000, 4.0, 5.0, 6.0,".data,
   "102.5, A.D. 2024-Jan-01 00:02:00.0000, 7.0, 8.0, 9.0,".data,
   "103.5, A.D. 2024-Jan-01 00:03:00.0000, 10.0, 11.0".data,
   "$$EOE".data]

/-- The JSON envelope of a Horizons response, abstracted to the two fields
the scripts inspect: an optional `error` field and an optional `result`
payload. -/
structure Envelope where
  errorField : Option String
  resultField : Option String

/-- Envelope-level failures of the fetch stage. -/
inductive FetchError where
  | upstream (msg : String)
  | malformedResponse
  deriving DecidableEq, Repr

/-- Envelope handling of `fetch_iss_vectors` / `fetch_satellite_vectors`
(generate_iss_ephemeris.py:87-124): an `error` field raises
`RuntimeError("Horizons API error: ...")` carrying the service's message
(spec: `UpstreamError`) before any payload parsing; a missing `result`
raises `RuntimeError("Unexpected API response format")` (spec:
`MalformedResponseError`); otherwise the payload is parsed and the points
and warning count returned. -/
def fetchVectors (env : Envelope) : Except FetchError (List PRec × Nat) :=
  match env.errorField with
  | some m => Except.error (FetchError.upstream m)
  | none =>
    match env.resultField with
    | none => Except.error FetchError.malformedResponse
    | some t => Except.ok ((parsePayload t).points, (parsePayload t).warnings)

/-- Observable steps of one pipeline invocation. -/
inductive Ev where
  | transportCall
  | encodeStep
  | persistStep
  | verifyStep
  deriving DecidableEq, Repr

/-- Terminal outcome of one pipeline invocation, named after the spec's
error taxonomy (the scripts print a message and `sys.exit(1)`). -/
inductive Outcome where
  | invalidWindow
  | fetchFailed (e : FetchError)
  | emptyResult
  | completed
  deriving DecidableEq, Repr

/-- A run's observable trace: which steps ran, and how the run ended. -/
structure Trace where
  events : List Ev
  outcome : Outcome
  deriving DecidableEq, Repr

/-- Control flow of `main` (generate_satellite_ephemeris.py:235-264),
with window instants as integers (naive UTC timestamps) and the external
transport's response as an argument: `if args.end <= args.start` exits
before any network activity; then the fetch (transport + parse) runs;
`if not points` exits without writing; otherwise the artifact is encoded,
persisted, and the verification pass runs. -/
def runMain (startT endT : Int) (response : Envelope) : Trace :=
  if endT ≤ startT then ⟨[], Outcome.invalidWindow⟩
  else
    match fetchVectors response with
    | Except.error e => ⟨[Ev.transportCall], Outcome.fetchFailed e⟩
    | Except.ok (pts, _) =>
      if pts = [] then ⟨[Ev.transportCall], Outcome.emptyResult⟩
      else ⟨[Ev.transportCall, Ev.encodeStep, Ev.persistStep, Ev.verifyStep],
            Outcome.completed⟩

/-! Validator: the diagnostic arithmetic of `verify_binary_ephemeris`
(generate_satellite_ephemeris.py:161-183), taken over the decoded sample
stream.  The claimed inputs make IEEE f64 arithmetic exact, so the values
are modelled over `ℝ`. -/

/-- One decoded sample with real-valued fields, for the validator. -/
structure VRec where
  jd : ℝ
  x : ℝ
  y : ℝ
  z : ℝ

/-- The vector magnitude `r = (x*x + y*y + z*z) ** 0.5`. -/
noncomputable def rmag (p : VRec) : ℝ :=
  Real.sqrt (p.x * p.x + p.y * p.y + p.z * p.z)

/-- The diagnostic values `verify_binary_ephemeris` reports: `r` of the
first point, `r` of the last point when the stream has more than one, and
the single `actual_altitude = r - 6378` computed from the last `r` read. -/
structure VerifyOut where
  firstR : Option ℝ
  lastR : Option ℝ
  actualAlt : Option ℝ

/-- Model of `verify_binary_ephemeris` on the decoded stream: with no
points nothing is reported; with one point its `r` and altitude are
reported; with more, `r` of the first and of the last are reported and the
altitude is derived from the last `r` (the Python local `r` is overwritten
before `actual_altitude = r - 6378`). -/
noncomputable def verifyReport (pts : List VRec) : VerifyOut :=
  match pts with
  | [] => ⟨none, none, none⟩
  | p :: rest =>
    match rest.getLast? with
    | none => ⟨some (rmag p), none, some (rmag p - 6378)⟩
    | some q => ⟨some (rmag p), some (rmag q), some (rmag q - 6378)⟩

/-! Byte-level helper lemmas. -/

theorem toLE_length : ∀ (k n : Nat), (toLE k n).length = k
  | 0, _ => rfl
  | k + 1, n => by simp [toLE, toLE_length k (n / 256)]

theorem readLE_cons (b : Nat) (l : List Nat) :
    readLE (b :: l) = b + 256 * readLE l := rfl

theorem readLE_toLE : ∀ (k n : Nat), readLE (toLE k n) = n % 256 ^ k
  | 0, n => by simp [toLE, readLE, Nat.mod_one]
  | k + 1, n => by
    rw [toLE, readLE_cons, readLE_toLE k (n / 256)]
    rw [pow_succ']
    rw [Nat.mod_mul]

theorem take_len_append {α : Type _} : ∀ (u v : List α), (u ++ v).take u.length = u
  | [], _ => rfl
  | x :: u, v => by
    simp only [List.cons_append, List.length_cons, List.take_succ_cons]
    rw [take_len_append u v]

theorem drop_len_append {α : Type _} : ∀ (u v : List α), (u ++ v).drop u.length = v
  | [], _ => rfl
  | x :: u, v => by
    simp only [List.cons_append, List.length_cons, List.drop_succ_cons]
    exact drop_len_append u v

theorem take_append_of_length {α : Type _} {u : List α} {n : Nat} (v : List α)
    (h : u.length = n) : (u ++ v).take n = u := by
  rw [← h]
  exact take_len_append u v

theorem drop_append_of_length {α : Type _} {u : List α} {n : Nat} (v : List α)
    (h : u.length = n) : (u ++ v).drop n = v := by
  rw [← h]
  exact drop_len_append u v

theorem take_all_of_len {α : Type _} : ∀ (n : Nat) (l : List α), l.length ≤ n → l.take n = l
  | _, [] => by simp
  | 0, x :: t => by
    intro h
    simp at h
  | n + 1, x :: t => by
    intro h
    simp only [List.take_succ_cons]
    rw [take_all_of_len n t (by simpa using h)]

theorem recBytes_length (r : FRec) : (recBytes r).length = 32 := by
  simp [recBytes, toLE_length]

theorem encodeRecords_length : ∀ (s : List FRec),
    (encodeRecords s).length = 32 * s.length
  | [] => rfl
  | r :: t => by
    simp only [encodeRecords, List.length_append, recBytes_length,
      encodeRecords_length t, List.length_cons]
    ring

theorem readLE_toLE_of_lt {k n : Nat} (h : n < 256 ^ k) :
    readLE (toLE k n) = n := by
  rw [readLE_toLE, Nat.mod_eq_of_lt h]

theorem decodeRec_recBytes (r : FRec) (h : validRec r) :
    decodeRec (recBytes r) = r := by
  obtain ⟨h1, h2, h3, h4⟩ := h
  obtain ⟨a, b, c, d⟩ := r
  simp only at h1 h2 h3 h4
  have hpow : (2 : Nat) ^ 64 = 256 ^ 8 := by norm_num
  rw [hpow] at h1 h2 h3 h4
  have e0 : recBytes ⟨a, b, c, d⟩ =
      toLE 8 a ++ (toLE 8 b ++ (toLE 8 c ++ toLE 8 d)) := by
    simp [recBytes, List.append_assoc]
  have e16 : recBytes ⟨a, b, c, d⟩ =
      (toLE 8 a ++ toLE 8 b) ++ (toLE 8 c ++ toLE 8 d) := by
    simp [recBytes, List.append_assoc]
  have e24 : recBytes ⟨a, b, c, d⟩ =
      ((toLE 8 a ++ toLE 8 b) ++ toLE 8 c) ++ toLE 8 d := by
    simp [recBytes, List.append_assoc]
  have l8 : ∀ m : Nat, (toLE 8 m).length = 8 := fun m => toLE_length 8 m
  have l16 : (toLE 8 a ++ toLE 8 b).length = 16 := by
    simp [List.length_append, l8]
  have l24 : ((toLE 8 a ++ toLE 8 b) ++ toLE 8 c).length = 24 := by
    simp [List.length_append, l8]
  unfold decodeRec
  have t1 : (recBytes ⟨a, b, c, d⟩).take 8 = toLE 8 a := by
    rw [e0, take_append_of_length _ (l8 a)]
  have t2 : ((recBytes ⟨a, b, c, d⟩).drop 8).take 8 = toLE 8 b := by
    rw [e0, drop_append_of_length _ (l8 a), take_append_of_length _ (l8 b)]
  have t3 : ((recBytes ⟨a, b, c, d⟩).drop 16).take 8 = toLE 8 c := by
    rw [e16, drop_append_of_length _ l16, take_append_of_length _ (l8 c)]
  have t4 : ((recBytes ⟨a, b, c, d⟩).drop 24).take 8 = toLE 8 d := by
    rw [e24, drop_append_of_length _ l24, take_all_of_len 8 _ (by rw [l8])]
  rw [t1, t2, t3, t4, readLE_toLE_of_lt h1, readLE_toLE_of_lt h2,
    readLE_toLE_of_lt h3, readLE_toLE_of_lt h4]

theorem decodeRecords_encodeRecords : ∀ (s : List FRec),
    (∀ r ∈ s, validRec r) →
    decodeRecords (encodeRecords s) s.length = s := by
  intro s
  induction s with
  | nil => intro _; rfl
  | cons r t ih =>
    intro h
    have hr : validRec r := h r (List.mem_cons_self r t)
    have ht : ∀ x ∈ t, validRec x := fun x hx => h x (List.mem_cons_of_mem r hx)
    show decodeRecords (recBytes r ++ encodeRecords t) (t.length + 1) = r :: t
    rw [decodeRecords, take_append_of_length _ (recBytes_length r),
      drop_append_of_length _ (recBytes_length r),
      decodeRec_recBytes r hr, ih ht]

/-- Claim C1: for every valid SampleStream (every record's four fields
finite f64 values, i.e. genuine 64-bit patterns), including the empty
stream, decoding the bytes produced by encoding the stream yields the
stream again field-for-field (bit patterns are preserved exactly, which is
exact floating-point equality for finite values); and the empty stream
encodes to exactly the 4-byte file with count 0. -/
theorem spec_C1_roundtrip :
    (∀ s : List FRec, (∀ r ∈ s, validRec r) →
      ∀ bs, encode s = some bs → decode bs = Except.ok s) ∧
    encode ([] : List FRec) = some [0, 0, 0, 0] := by
  constructor
  · intro s hs bs hbs
    have hlen : s.length < 2 ^ 32 := by
      by_contra hc
      rw [encode, if_neg hc] at hbs
      exact Option.noConfusion hbs
    have hbs' : bs = toLE 4 s.length ++ encodeRecords s := by
      rw [encode, if_pos hlen] at hbs
      exact (Option.some.injEq _ _ ▸ hbs).symm
    subst hbs'
    have hL4 : (toLE 4 s.length).length = 4 := toLE_length 4 s.length
    have hlen_all : (toLE 4 s.length ++ encodeRecords s).length = 4 + 32 * s.length := by
      simp [List.length_append, hL4, encodeRecords_length]
    have hhead : headerCount (toLE 4 s.length ++ encodeRecords s) = s.length := by
      unfold headerCount
      rw [take_append_of_length _ hL4, readLE_toLE]
      have h4 : (256 : Nat) ^ 4 = 2 ^ 32 := by norm_num
      rw [h4, Nat.mod_eq_of_lt hlen]
    unfold decode
    rw [hlen_all, hhead, if_neg (by omega), if_pos rfl,
      drop_append_of_length _ hL4, decodeRecords_encodeRecords s hs]
  · rfl

/-- Witness for C1 at a concrete one-record stream. -/
theorem spec_C1_witness :
    decode (toLE 4 1 ++ encodeRecords [(⟨1, 2, 3, 4⟩ : FRec)]) =
      Except.ok [(⟨1, 2, 3, 4⟩ : FRec)] :=
  spec_C1_roundtrip.1 [⟨1, 2, 3, 4⟩] (by decide)
    (toLE 4 1 ++ encodeRecords [⟨1, 2, 3, 4⟩]) rfl

/-- Claim C2: decode fails with TruncatedDataError exactly when the input
is shorter than 4 bytes or its length differs from `4 + 32 * count` for
the count declared in the 4-byte little-endian header; it succeeds exactly
when the length matches. -/
theorem spec_C2_decode_rejects :
    ∀ b : List Nat,
      (decode b = Except.error CodecError.truncatedData ↔
        b.length < 4 ∨ b.length ≠ 4 + 32 * headerCount b) ∧
      ((∃ s, decode b = Except.ok s) ↔
        4 ≤ b.length ∧ b.length = 4 + 32 * headerCount b) := by
  intro b
  unfold decode
  by_cases h1 : b.length < 4
  · rw [if_pos h1]
    constructor
    · simp [h1]
    · constructor
      · intro ⟨s, hs⟩
        exact absurd hs (by simp)
      · intro ⟨h4, _⟩
        omega
  · rw [if_neg h1]
    by_cases h2 : b.length = 4 + 32 * headerCount b
    · rw [if_pos h2]
      constructor
      · constructor
        · intro hx
          exact absurd hx (by simp)
        · intro hx
          rcases hx with hx | hx
          · exact absurd hx h1
          · exact absurd h2 hx
      · constructor
        · intro _
          exact ⟨by omega, h2⟩
        · intro _
          exact ⟨_, rfl⟩
    · rw [if_neg h2]
      constructor
      · simp [h2]
      · constructor
        · intro ⟨s, hs⟩
          exact absurd hs (by simp)
        · intro ⟨_, hx⟩
          exact absurd hx h2

/-- Claim C3: the encoded output is the 4-byte little-endian u32 count
(decoding back to `len(s)`) followed by the 32-byte records, four
little-endian f64 fields in the order time, x, y, z, with total length
exactly `4 + 32 * len(s)` and nothing else; encoding never fails for a
stream representable in the format (count below `2 ^ 32`, the range of the
u32 count field). -/
theorem spec_C3_encode_layout :
    ∀ s : List FRec, s.length < 2 ^ 32 →
      encode s = some (toLE 4 s.length ++ encodeRecords s) ∧
      (∀ bs, encode s = some bs → bs.length = 4 + 32 * s.length) ∧
      readLE (toLE 4 s.length) = s.length ∧
      (toLE 4 s.length).length = 4 ∧
      (∀ r t, encodeRecords (r :: t) =
        (toLE 8 r.jd ++ toLE 8 r.x ++ toLE 8 r.y ++ toLE 8 r.z) ++ encodeRecords t) := by
  intro s hlen
  have henc : encode s = some (toLE 4 s.length ++ encodeRecords s) := by
    rw [encode, if_pos hlen]
  refine ⟨henc, ?_, ?_, toLE_length 4 s.length, ?_⟩
  · intro bs hbs
    rw [henc] at hbs
    have : bs = toLE 4 s.length ++ encodeRecords s := (Option.some.injEq _ _ ▸ hbs).symm
    subst this
    simp [List.length_append, toLE_length, encodeRecords_length]
  · rw [readLE_toLE]
    have h4 : (256 : Nat) ^ 4 = 2 ^ 32 := by norm_num
    rw [h4, Nat.mod_eq_of_lt hlen]
  · intro r t
    simp [encodeRecords, recBytes, List.append_assoc]

/-- Witness for C3 at a concrete one-record stream. -/
theorem spec_C3_witness :
    encode ([(⟨1, 2, 3, 4⟩ : FRec)]) =
      some (toLE 4 1 ++ encodeRecords [(⟨1, 2, 3, 4⟩ : FRec)]) :=
  (spec_C3_encode_layout [⟨1, 2, 3, 4⟩] (by decide)).1

/-! Parser helper lemmas. -/

theorem stepStripped_soe (s : PState) :
    stepStripped s soeMark = StepOut.go ⟨true, s.points, s.warnings⟩ := by
  rw [stepStripped, if_pos rfl]

theorem stepStripped_eoe (s : PState) :
    stepStripped s eoeMark = StepOut.stop s := by
  rw [stepStripped, if_neg (by decide), if_pos rfl]

theorem stepStripped_out (s : PState) (l : List Char) (hin : s.inData = false)
    (hso : l ≠ soeMark) (heo : l ≠ eoeMark) :
    stepStripped s l = StepOut.go s := by
  rw [stepStripped, if_neg hso, if_neg heo,
    if_neg (by rw [hin]; exact fun h => Bool.noConfusion h.1)]

theorem stepStripped_stop_iff (s s' : PState) (l : List Char)
    (h : stepStripped s l = StepOut.stop s') : l = eoeMark ∧ s' = s := by
  by_cases hso : l = soeMark
  · rw [hso, stepStripped_soe] at h
    exact StepOut.noConfusion h
  by_cases heo : l = eoeMark
  · rw [heo, stepStripped_eoe] at h
    refine ⟨heo, ?_⟩
    injection h with h'
    exact h'.symm
  · exfalso
    have hgo : ∃ t, stepStripped s l = StepOut.go t := by
      rw [stepStripped, if_neg hso, if_neg heo]
      by_cases hd : s.inData = true ∧ l ≠ []
      · rw [if_pos hd]
        split
        · split
          · exact ⟨_, rfl⟩
          · exact ⟨_, rfl⟩
        · exact ⟨_, rfl⟩
      · rw [if_neg hd]
        exact ⟨_, rfl⟩
    obtain ⟨t, ht⟩ := hgo
    rw [ht] at h
    exact StepOut.noConfusion h

theorem runLines_cons_go {s s' : PState} {l : List Char} {ls : List (List Char)}
    (h : stepLine s l = StepOut.go s') : runLines s (l :: ls) = runLines s' ls := by
  rw [runLines, h]

theorem runLines_cons_stop {s s' : PState} {l : List Char} {ls : List (List Char)}
    (h : stepLine s l = StepOut.stop s') : runLines s (l :: ls) = s' := by
  rw [runLines, h]

theorem stepStripped_data (pts : List PRec) (w : Nat) (raw : List Char)
    (hso : stripL raw ≠ soeMark) (heo : stripL raw ≠ eoeMark) :
    ∃ w', stepLine ⟨true, pts, w⟩ raw =
      StepOut.go ⟨true, pts ++ (rowRecord raw).toList, w'⟩ := by
  rw [stepLine, stepStripped, if_neg hso, if_neg heo]
  by_cases hbl : stripL raw = []
  · refine ⟨w, ?_⟩
    rw [if_neg (fun h => h.2 hbl)]
    have hro : rowRecord raw = none := by
      rw [rowRecord, hbl]
      rfl
    rw [hro]
    simp
  · rw [if_pos ⟨rfl, hbl⟩]
    rw [rowRecord]
    rcases hsp : splitSep ',' (stripL raw) with _ | ⟨p0, _ | ⟨p1, _ | ⟨p2, _ | ⟨p3, _ | ⟨p4, rest⟩⟩⟩⟩⟩
    · exact ⟨w, by simp⟩
    · exact ⟨w, by simp⟩
    · exact ⟨w, by simp⟩
    · exact ⟨w, by simp⟩
    · exact ⟨w, by simp⟩
    · cases hpf : parseFields p0 p2 p3 p4
      · exact ⟨w + 1, by simp [hpf]⟩
      · exact ⟨w, by simp [hpf]⟩

theorem runLines_append_no_eoe : ∀ (as : List (List Char))
    (s : PState) (bs : List (List Char)),
    (∀ l ∈ as, stripL l ≠ eoeMark) →
    runLines s (as ++ bs) = runLines (runLines s as) bs
  | [], _, _, _ => rfl
  | a :: as, s, bs, h => by
    cases hstep : stepLine s a with
    | stop s' =>
      exfalso
      exact (h a (List.mem_cons_self a as))
        (stepStripped_stop_iff s s' (stripL a) hstep).1
    | go s' =>
      show runLines s ((a :: as) ++ bs) = runLines (runLines s (a :: as)) bs
      rw [List.cons_append, runLines, hstep, runLines, hstep]
      exact runLines_append_no_eoe as s' bs
        (fun l hl => h l (List.mem_cons_of_mem a hl))

theorem runLines_span : ∀ (mid : List (List Char)) (pts : List PRec) (w : Nat),
    (∀ l ∈ mid, stripL l ≠ soeMark ∧ stripL l ≠ eoeMark) →
    ∃ w', runLines ⟨true, pts, w⟩ mid =
      ⟨true, pts ++ mid.filterMap rowRecord, w'⟩
  | [], pts, w, _ => ⟨w, by simp [runLines]⟩
  | l :: mid, pts, w, h => by
    obtain ⟨hso, heo⟩ := h l (List.mem_cons_self l mid)
    obtain ⟨w', hstep⟩ := stepStripped_data pts w l hso heo
    obtain ⟨w'', htail⟩ := runLines_span mid (pts ++ (rowRecord l).toList) w'
      (fun x hx => h x (List.mem_cons_of_mem l hx))
    refine ⟨w'', ?_⟩
    rw [runLines_cons_go hstep, htail]
    cases hro : rowRecord l <;>
      simp [List.filterMap_cons, hro]

theorem runLines_no_soe : ∀ (ls : List (List Char)) (pts : List PRec) (w : Nat),
    (∀ l ∈ ls, stripL l ≠ soeMark) →
    runLines ⟨false, pts, w⟩ ls = ⟨false, pts, w⟩
  | [], _, _, _ => rfl
  | l :: ls, pts, w, h => by
    by_cases heo : stripL l = eoeMark
    · exact runLines_cons_stop (by rw [stepLine, heo, stepStripped_eoe])
    · rw [runLines_cons_go (show stepLine ⟨false, pts, w⟩ l = StepOut.go ⟨false, pts, w⟩ by
        rw [stepLine, stepStripped_out ⟨false, pts, w⟩ (stripL l) rfl
          (h l (List.mem_cons_self l ls)) heo])]
      exact runLines_no_soe ls pts w (fun x hx => h x (List.mem_cons_of_mem l hx))

theorem stepLine_short_row (s : PState) (l : List Char) (hin : s.inData = true)
    (hso : stripL l ≠ soeMark) (heo : stripL l ≠ eoeMark)
    (hlen : (splitSep ',' (stripL l)).length < 5) :
    stepLine s l = StepOut.go s := by
  rw [stepLine, stepStripped, if_neg hso, if_neg heo]
  by_cases hbl : stripL l = []
  · rw [if_neg (fun h => h.2 hbl)]
  · rw [if_pos ⟨hin, hbl⟩]
    rcases hsp : splitSep ',' (stripL l) with _ | ⟨p0, _ | ⟨p1, _ | ⟨p2, _ | ⟨p3, _ | ⟨p4, rest⟩⟩⟩⟩⟩
    · rfl
    · rfl
    · rfl
    · rfl
    · rfl
    · exfalso
      rw [hsp] at hlen
      simp only [List.length_cons] at hlen
      omega

theorem stepLine_bad_numeric (s : PState) (l : List Char)
    (p0 p1 p2 p3 p4 : List Char) (rest : List (List Char)) (hin : s.inData = true)
    (hso : stripL l ≠ soeMark) (heo : stripL l ≠ eoeMark)
    (hsp : splitSep ',' (stripL l) = p0 :: p1 :: p2 :: p3 :: p4 :: rest)
    (hpf : parseFields p0 p2 p3 p4 = none) :
    stepLine s l = StepOut.go ⟨s.inData, s.points, s.warnings + 1⟩ := by
  have hbl : stripL l ≠ [] := by
    intro h0
    rw [h0] at hsp
    simp [splitSep] at hsp
  rw [stepLine, stepStripped, if_neg hso, if_neg heo, if_pos ⟨hin, hbl⟩, hsp]
  simp [hpf]

/-- Claim C4 counterexample: on the spec §8 input — a start marker, three
well-formed rows, one malformed row with only four comma fields, and an
end marker — the parser yields the three records in order but logs zero
skips, not one: the `len(parts) >= 5` guard filters the short row without
printing a warning (the warning is printed only in the `except` branch of
the float conversions). -/
theorem spec_C4_counterexample :
    (parseLines exampleLines).points.length = 3 ∧
    (parseLines exampleLines).warnings = 0 ∧
    ¬ (parseLines exampleLines).warnings = 1 := by
  refine ⟨?_, ?_, ?_⟩ <;> with_unfolding_all decide

/-- Claim C4 as amended: inside the data span a row with fewer than five
comma fields is skipped silently (the loop continues, no warning); a row
with at least five fields whose numeric fields fail to parse records one
warning and continues; on the spec §8 input the parser yields the three
well-formed records in row order with zero logged skips. -/
theorem spec_C4_tolerated_skips :
    (∀ (s : PState) (l : List Char), s.inData = true →
      stripL l ≠ soeMark → stripL l ≠ eoeMark →
      (splitSep ',' (stripL l)).length < 5 →
      stepLine s l = StepOut.go s) ∧
    (∀ (s : PState) (l : List Char) (p0 p1 p2 p3 p4 : List Char)
        (rest : List (List Char)), s.inData = true →
      stripL l ≠ soeMark → stripL l ≠ eoeMark →
      splitSep ',' (stripL l) = p0 :: p1 :: p2 :: p3 :: p4 :: rest →
      parseFields p0 p2 p3 p4 = none →
      stepLine s l = StepOut.go ⟨s.inData, s.points, s.warnings + 1⟩) ∧
    (parseLines exampleLines).points =
      [⟨201 / 2, 1, 2, 3⟩, ⟨203 / 2, 4, 5, 6⟩, ⟨205 / 2, 7, 8, 9⟩] ∧
    (parseLines exampleLines).warnings = 0 := by
  refine ⟨stepLine_short_row, stepLine_bad_numeric, ?_, ?_⟩ <;> with_unfolding_all decide

/-- Witness for the amended C4 at a concrete short row inside the span. -/
theorem spec_C4_witness :
    stepLine ⟨true, [], 0⟩ "103.5, cal, 10.0, 11.0".data =
      StepOut.go ⟨true, [], 0⟩ :=
  spec_C4_tolerated_skips.1 ⟨true, [], 0⟩ "103.5, cal, 10.0, 11.0".data
    rfl (by decide) (by decide) (by decide)

/-- Claim C5: records come only from lines strictly between the sentinel
lines, in encountered order (`filterMap` over the span, given no marker
appears inside it); everything before the start marker and after the end
marker is ignored; a missing end marker just parses to the end of text;
and a payload with no start marker yields the empty stream (the untouched
initial state), not an error. -/
theorem spec_C5_sentinel_span :
    (∀ (pre mid post : List (List Char)) (lsoe leoe : List Char),
      (∀ l ∈ pre, stripL l ≠ soeMark ∧ stripL l ≠ eoeMark) →
      (∀ l ∈ mid, stripL l ≠ soeMark ∧ stripL l ≠ eoeMark) →
      stripL lsoe = soeMark → stripL leoe = eoeMark →
      (parseLines (pre ++ lsoe :: (mid ++ leoe :: post))).points =
        mid.filterMap rowRecord) ∧
    (∀ (pre mid : List (List Char)) (lsoe : List Char),
      (∀ l ∈ pre, stripL l ≠ soeMark ∧ stripL l ≠ eoeMark) →
      (∀ l ∈ mid, stripL l ≠ soeMark ∧ stripL l ≠ eoeMark) →
      stripL lsoe = soeMark →
      (parseLines (pre ++ lsoe :: mid)).points = mid.filterMap rowRecord) ∧
    (∀ ls : List (List Char), (∀ l ∈ ls, stripL l ≠ soeMark) →
      parseLines ls = initState) := by
  have hpre : ∀ (pre rest : List (List Char)),
      (∀ l ∈ pre, stripL l ≠ soeMark ∧ stripL l ≠ eoeMark) →
      parseLines (pre ++ rest) = runLines initState rest := by
    intro pre rest hp
    rw [parseLines, runLines_append_no_eoe pre initState rest
      (fun l hl => (hp l hl).2)]
    rw [show runLines initState pre = initState from
      runLines_no_soe pre [] 0 (fun l hl => (hp l hl).1)]
  have hsoe_step : ∀ (lsoe : List Char), stripL lsoe = soeMark →
      ∀ rest, runLines initState (lsoe :: rest) = runLines ⟨true, [], 0⟩ rest := by
    intro lsoe hls rest
    exact runLines_cons_go (by rw [stepLine, hls, stepStripped_soe]; rfl)
  refine ⟨?_, ?_, ?_⟩
  · intro pre mid post lsoe leoe hp hm hls hle
    obtain ⟨w', hspan⟩ := runLines_span mid [] 0 hm
    rw [hpre pre _ hp, hsoe_step lsoe hls,
      runLines_append_no_eoe mid ⟨true, [], 0⟩ (leoe :: post)
        (fun l hl => (hm l hl).2), hspan,
      runLines_cons_stop (by rw [stepLine, hle, stepStripped_eoe])]
    simp
  · intro pre mid lsoe hp hm hls
    rw [hpre pre _ hp, hsoe_step lsoe hls]
    obtain ⟨w', hspan⟩ := runLines_span mid [] 0 hm
    rw [hspan]
    simp
  · intro ls hls
    exact runLines_no_soe ls [] 0 hls

/-- Witness for C5 at a concrete payload: junk before the start marker, one
data row, a whitespace-padded end marker, trailing junk. -/
theorem spec_C5_witness :
    (parseLines (["junk line".data] ++ "$$SOE".data ::
        (["100.5, cal, 1.0, 2.0, 3.0,".data] ++ "  $$EOE  ".data ::
          ["trailing junk".data]))).points =
      List.filterMap rowRecord ["100.5, cal, 1.0, 2.0, 3.0,".data] :=
  spec_C5_sentinel_span.1 ["junk line".data]
    ["100.5, cal, 1.0, 2.0, 3.0,".data] ["trailing junk".data]
    "$$SOE".data "  $$EOE  ".data
    (by decide) (by decide) (by decide) (by decide)

/-- Claim C10: the response-parsing loop is total on every payload — each
line yields either a successor state or a clean break returning the
current state (no exception escapes); a whitespace-only line anywhere is
skipped without producing a record or changing the result; and a data row
whose numeric conversion fails is converted to a warning-and-skip. -/
theorem spec_C10_loop_total :
    (∀ (s : PState) (pre post : List (List Char)) (bl : List Char),
      stripL bl = [] →
      runLines s (pre ++ bl :: post) = runLines s (pre ++ post)) ∧
    (∀ (s : PState) (l : List Char),
      (∃ s', stepLine s l = StepOut.go s') ∨ stepLine s l = StepOut.stop s) ∧
    (∀ (s : PState) (l : List Char) (p0 p1 p2 p3 p4 : List Char)
        (rest : List (List Char)), s.inData = true →
      stripL l ≠ soeMark → stripL l ≠ eoeMark →
      splitSep ',' (stripL l) = p0 :: p1 :: p2 :: p3 :: p4 :: rest →
      parseFields p0 p2 p3 p4 = none →
      stepLine s l = StepOut.go ⟨s.inData, s.points, s.warnings + 1⟩) := by
  have hblank : ∀ (s : PState) (bl : List Char), stripL bl = [] →
      stepLine s bl = StepOut.go s := by
    intro s bl h
    rw [stepLine, h, stepStripped, if_neg (by decide), if_neg (by decide),
      if_neg (fun hc => hc.2 rfl)]
  refine ⟨?_, ?_, stepLine_bad_numeric⟩
  · intro s pre
    induction pre generalizing s with
    | nil =>
      intro post bl h
      show runLines s (bl :: post) = runLines s post
      rw [runLines, hblank s bl h]
    | cons a pre ih =>
      intro post bl h
      show runLines s (a :: (pre ++ bl :: post)) = runLines s (a :: (pre ++ post))
      rw [runLines, runLines]
      cases hstep : stepLine s a with
      | stop s' => rfl
      | go s' => exact ih s' post bl h
  · intro s l
    by_cases hso : stripL l = soeMark
    · exact Or.inl ⟨_, by rw [stepLine, hso, stepStripped_soe]⟩
    by_cases heo : stripL l = eoeMark
    · exact Or.inr (by rw [stepLine, heo, stepStripped_eoe])
    · rw [stepLine, stepStripped, if_neg hso, if_neg heo]
      by_cases hd : s.inData = true ∧ stripL l ≠ []
      · rw [if_pos hd]
        left
        split
        · split
          · exact ⟨_, rfl⟩
          · exact ⟨_, rfl⟩
        · exact ⟨_, rfl⟩
      · rw [if_neg hd]
        exact Or.inl ⟨_, rfl⟩

/-- Witness for C10: inserting a whitespace-only line inside the data span
leaves the parse of a concrete payload unchanged. -/
theorem spec_C10_witness :
    runLines initState (["$$SOE".data] ++ "   ".data ::
        ["100.5, cal, 1.0, 2.0, 3.0,".data]) =
      runLines initState (["$$SOE".data] ++ ["100.5, cal, 1.0, 2.0, 3.0,".data]) :=
  spec_C10_loop_total.1 initState ["$$SOE".data]
    ["100.5, cal, 1.0, 2.0, 3.0,".data] "   ".data (by decide)

/-- Claim C6: an explicit error field fails with UpstreamError carrying the
service's message regardless of the rest of the envelope (no payload
parsing is attempted — the result is independent of the payload field); a
missing result payload fails with MalformedResponseError; otherwise the
payload is parsed; and these are the only envelope-level failures. -/
theorem spec_C6_envelope_errors :
    (∀ (m : String) (r : Option String),
      fetchVectors ⟨some m, r⟩ = Except.error (FetchError.upstream m)) ∧
    fetchVectors ⟨none, none⟩ = Except.error FetchError.malformedResponse ∧
    (∀ t : String,
      fetchVectors ⟨none, some t⟩ =
        Except.ok ((parsePayload t).points, (parsePayload t).warnings)) ∧
    (∀ env : Envelope,
      (∃ e, fetchVectors env = Except.error e) ↔
        ((∃ m, env.errorField = some m) ∨ env.resultField = none)) := by
  refine ⟨fun m r => rfl, rfl, fun t => rfl, ?_⟩
  intro env
  obtain ⟨er, res⟩ := env
  cases er <;> cases res <;> simp [fetchVectors]

/-- Claim C7: whenever parsing yields an empty stream, the pipeline fails
with EmptyResultError after the transport call and the encode and persist
steps are never reached, so no output artifact is written. -/
theorem spec_C7_empty_result :
    ∀ (startT endT : Int) (t : String),
      startT < endT →
      (parsePayload t).points = [] →
      runMain startT endT ⟨none, some t⟩ =
        ⟨[Ev.transportCall], Outcome.emptyResult⟩ ∧
      Ev.encodeStep ∉ (runMain startT endT ⟨none, some t⟩).events ∧
      Ev.persistStep ∉ (runMain startT endT ⟨none, some t⟩).events := by
  intro s e t hw hempty
  have hrun : runMain s e ⟨none, some t⟩ =
      ⟨[Ev.transportCall], Outcome.emptyResult⟩ := by
    rw [runMain, if_neg (not_le.mpr hw)]
    show (if (parsePayload t).points = [] then
        (⟨[Ev.transportCall], Outcome.emptyResult⟩ : Trace)
      else ⟨[Ev.transportCall, Ev.encodeStep, Ev.persistStep, Ev.verifyStep],
            Outcome.completed⟩) =
      ⟨[Ev.transportCall], Outcome.emptyResult⟩
    rw [if_pos hempty]
  refine ⟨hrun, ?_, ?_⟩ <;> rw [hrun] <;> decide

/-- Witness for C7: a payload with no data rows ends the run in
EmptyResultError with only the transport step in the trace. -/
theorem spec_C7_witness :
    runMain 0 1 ⟨none, some "no data here"⟩ =
      ⟨[Ev.transportCall], Outcome.emptyResult⟩ :=
  (spec_C7_empty_result 0 1 "no data here" (by decide)
    (by with_unfolding_all decide)).1

/-- Claim C8: a window with end before or equal to start fails with
InvalidWindowError and the transport is never invoked (the trace is
empty). -/
theorem spec_C8_invalid_window :
    ∀ (startT endT : Int) (env : Envelope),
      endT ≤ startT →
      runMain startT endT env = ⟨[], Outcome.invalidWindow⟩ ∧
      Ev.transportCall ∉ (runMain startT endT env).events := by
  intro s e env h
  have hrun : runMain s e env = ⟨[], Outcome.invalidWindow⟩ := by
    rw [runMain, if_pos h]
  refine ⟨hrun, ?_⟩
  rw [hrun]
  decide

/-- Witness for C8 at a degenerate window with end equal to start. -/
theorem spec_C8_witness :
    runMain 0 0 ⟨none, none⟩ = ⟨[], Outcome.invalidWindow⟩ :=
  (spec_C8_invalid_window 0 0 ⟨none, none⟩ (by decide)).1

/-! Validator lemmas. -/

theorem rmag_axis (t a : ℝ) (h : 0 ≤ a) : rmag ⟨t, a, 0, 0⟩ = a := by
  unfold rmag
  simp only
  have hsq : a * a + 0 * 0 + 0 * 0 = a ^ 2 := by ring
  rw [hsq, Real.sqrt_sq h]

/-- Claim C9 counterexample: on a two-sample stream whose first sample is
the claimed `(6798, 0, 0)` and whose last differs, the only altitude the
verifier reports is derived from the last sample's `r` (the Python local
`r` is overwritten before `actual_altitude = r - 6378`), so the first
record's altitude `420 = 6798 - 6378` is never reported. -/
theorem spec_C9_counterexample :
    verifyReport [⟨0, 6798, 0, 0⟩, ⟨1, 7000, 0, 0⟩] =
      ⟨some 6798, some 7000, some 622⟩ ∧
    (622 : ℝ) ≠ 6798 - 6378 := by
  constructor
  · have h1 : rmag ⟨0, 6798, 0, 0⟩ = 6798 := rmag_axis 0 6798 (by norm_num)
    have h2 : rmag ⟨1, 7000, 0, 0⟩ = 7000 := rmag_axis 1 7000 (by norm_num)
    have hv : verifyReport [⟨0, 6798, 0, 0⟩, ⟨1, 7000, 0, 0⟩] =
        ⟨some (rmag ⟨0, 6798, 0, 0⟩), some (rmag ⟨1, 7000, 0, 0⟩),
          some (rmag ⟨1, 7000, 0, 0⟩ - 6378)⟩ := rfl
    rw [hv, h1, h2]
    norm_num
  · norm_num

/-- Claim C9 as amended: the Validator computes and reports
`r = sqrt(x² + y² + z²)` for the first record and, when more than one
sample exists, for the last record; it reports one derived altitude
`r − 6378`, computed from the last `r` it examined; on the known
single-sample input `(6798, 0, 0)` the arithmetic is exact, reporting
`r = 6798` and altitude `420`. -/
theorem spec_C9_validator_report :
    (∀ p : VRec, verifyReport [p] =
      ⟨some (rmag p), none, some (rmag p - 6378)⟩) ∧
    (∀ (p q : VRec) (mid : List VRec),
      verifyReport (p :: (mid ++ [q])) =
        ⟨some (rmag p), some (rmag q), some (rmag q - 6378)⟩) ∧
    verifyReport [⟨0, 6798, 0, 0⟩] = ⟨some 6798, none, some 420⟩ := by
  refine ⟨fun p => rfl, ?_, ?_⟩
  · intro p q mid
    simp [verifyReport, List.getLast?_concat]
  · have h1 : rmag ⟨0, 6798, 0, 0⟩ = 6798 := rmag_axis 0 6798 (by norm_num)
    have hv : verifyReport [⟨0, 6798, 0, 0⟩] =
        ⟨some (rmag ⟨0, 6798, 0, 0⟩), none,
          some (rmag ⟨0, 6798, 0, 0⟩ - 6378)⟩ := rfl
    rw [hv, h1]
    norm_num

end OnceAround
